import Mathlib

/-!
Verification of the `fs` storage driver of the skygear-server repository
(file-backed implementation of the `oddb` Database contract), together with
the `oddb` query/sort data model.

The definitions below are a shallow embedding of the Go source:
  - `Value`, `sprint`, `reflectLess` embed the polymorphic comparator
    `reflectLess` (fs driver) over the spec's Value model
    {absent/null, bool, integer, float, string};
  - `QuerySort`, `Query`, `recordSorterBy`, `goInsertionSort` embed
    `newRecordSorter` / `recordSorter.Sort`;
  - `queryRun` embeds `fileDatabase.Query` with its external effects
    (directory creation, the `grep` scan) made explicit as parameters;
  - `getRun`, `saveRun`, `deleteRun`, `executeHook`, `addDBRecordHook`
    embed `fileDatabase.Get/Save/Delete/executeHook` and
    `fileConn.AddDBRecordHook`, with the file system modelled as an
    association list sorted by key (files in a directory, as enumerated by
    the shell glob the scan uses, appear in name order).

Machine integers are modelled as `Int`/`Nat` (no overflow occurs in the
embedded code paths); Go `float64` values are modelled by the rationals
they denote (finite, non-NaN floats; `<` on such floats agrees with `<`
on the denoted rationals).
-/

namespace SkygearFS

/-- Field value of a record, after the spec's Value model: one of
absent/null, boolean, integer, floating-point, string.  Go's `reflectLess`
receives these as `interface{}` and branches on `reflect.Kind`; the
embedding gives one constructor per kind in scope.  Go float64 values are
modelled by the rational they denote (finite, non-NaN). -/
inductive Value where
  | null : Value
  | bool (b : Bool) : Value
  | int (n : Int) : Value
  | float (q : ℚ) : Value
  | str (s : String) : Value
deriving DecidableEq

/-- Discriminator for the underlying kind of a value, embedding
`reflect.Value.Kind()` restricted to the kinds of the Value model
(0 = invalid/nil, 1 = Bool, 2 = Int, 3 = Float64, 4 = String). -/
def Value.kind : Value → Nat
  | .null => 0
  | .bool _ => 1
  | .int _ => 2
  | .float _ => 3
  | .str _ => 4

/-- UTF-8 encoding of one character as its byte values (Go strings are
byte strings; record keys and string field values in this development are
compared byte-wise as Go's `<` on `string` does). -/
def charUtf8 (c : Char) : List Nat :=
  let n := c.toNat
  if n < 128 then [n]
  else if n < 2048 then [192 + n / 64, 128 + n % 64]
  else if n < 65536 then [224 + n / 4096, 128 + (n / 64) % 64, 128 + n % 64]
  else [240 + n / 262144, 128 + (n / 4096) % 64, 128 + (n / 64) % 64, 128 + n % 64]

/-- Byte sequence of a string under UTF-8, the representation Go strings
carry. -/
def strBytes (s : String) : List Nat :=
  s.data.flatMap charUtf8

/-- Lexicographic strict order on byte sequences: exactly Go's `<` on
`string` (byte-wise compare, a strict prefix is smaller). -/
def bytesLt : List Nat → List Nat → Bool
  | _, [] => false
  | [], _ :: _ => true
  | a :: as, b :: bs => if a < b then true else if b < a then false else bytesLt as bs

/-- Go's `<` on `string`: byte-wise lexicographic comparison. -/
def goStrLt (s t : String) : Bool :=
  bytesLt (strBytes s) (strBytes t)

/-- Decimal digits of the fractional part of `r / den`, with `fuel`
bounding the number of digits (a finite float64's exact decimal expansion
has fewer than 1100 fractional digits). -/
def fracDigits : Nat → Nat → Nat → String
  | 0, _, _ => ""
  | _, 0, _ => ""
  | fuel + 1, r, den =>
    let r10 := r * 10
    toString (r10 / den) ++ fracDigits fuel (r10 % den) den

/-- Rendering of a float64 by Go's `fmt.Sprint` (verb `%v`, i.e.
`strconv.FormatFloat(f, g, -1, 64)`), modelled on the denoted rational:
an integral value prints as a plain integer, a non-integral value as its
exact finite decimal expansion.  The model is faithful on the values the
theorems below evaluate (integral values of small magnitude); it does not
reproduce Go's switch to scientific notation for magnitudes outside
[1e-4, 1e21). -/
def floatSprint (q : ℚ) : String :=
  if q.den = 1 then toString q.num
  else
    (if q.num < 0 then "-" else "")
      ++ toString (q.num.natAbs / q.den)
      ++ "." ++ fracDigits 1100 (q.num.natAbs % q.den) q.den

/-- String form of a value as produced by Go's `fmt.Sprint`: `"<nil>"`
for nil, `"true"`/`"false"` for booleans, decimal for integers, the
string itself for strings. -/
def sprint : Value → String
  | .null => "<nil>"
  | .bool true => "true"
  | .bool false => "false"
  | .int n => toString n
  | .float q => floatSprint q
  | .str s => s

/-- Embedding of the fs driver's `reflectLess(i1, i2 interface{}) bool`:
nil checks first (both nil is less; a single nil is less on the left,
not less on the right), then a differing-kind test falling back to
comparing `fmt.Sprint` forms with Go string `<`, then a same-kind switch
(bool returns false only for the pair (true, false); int and float
compare numerically; string compares byte-wise; the remaining arm mirrors
the Go `default` case, unreachable for the kinds in scope). -/
def reflectLess (i1 i2 : Value) : Bool :=
  if i1 = .null ∧ i2 = .null then true
  else if i1 = .null then true
  else if i2 = .null then false
  else if i1.kind ≠ i2.kind then goStrLt (sprint i1) (sprint i2)
  else
    match i1, i2 with
    | .bool b1, .bool b2 => if b1 ∧ ¬b2 then false else true
    | .int n1, .int n2 => decide (n1 < n2)
    | .float f1, .float f2 => decide (f1 < f2)
    | .str s1, .str s2 => goStrLt s1 s2
    | _, _ => goStrLt (sprint i1) (sprint i2)

end SkygearFS

namespace SkygearFS

/-- Modelled from the spec: the `oddb.Record` type (its defining file is
not part of the excerpt; the spec gives key, a type discriminator, and a
mapping from field name to Value).  Fields are an association list. -/
structure Record where
  key : String
  typ : String
  fields : List (String × Value)
deriving DecidableEq

/-- Modelled from the spec: `oddb.Record.Get(fieldPath)` returns the
value stored under the field name, and the absent/null Value when the
path is unknown. -/
def Record.get (r : Record) (f : String) : Value :=
  match r.fields.lookup f with
  | some v => v
  | none => .null

/-- Embedding of `oddb.SortOrder` (`Ascending = 0`, `Descending = 1`;
`Asc`/`Desc` are aliases). -/
inductive SortOrder where
  | ascending : SortOrder
  | descending : SortOrder
deriving DecidableEq

/-- Embedding of `oddb.Sort`: the field path to sort on and the order
(the Go name `Sort` is a reserved word in Lean). -/
structure QuerySort where
  keyPath : String
  order : SortOrder
deriving DecidableEq

/-- Embedding of `oddb.Query`: the record type to select and the sort
list (`Predicate` is an empty placeholder struct in the source and is
omitted). -/
structure Query where
  typ : String
  sorts : List QuerySort
deriving DecidableEq

/-- Embedding of the `by` comparison function built by `newRecordSorter`:
the `Descending` case negates `reflectLess` on the two records' values at
the sort key path; the Go `default` case (covering `Ascending`) uses
`reflectLess` directly. -/
def recordSorterBy (si : QuerySort) : Record → Record → Bool :=
  match si.order with
  | .descending => fun r1 r2 => !reflectLess (r1.get si.keyPath) (r2.get si.keyPath)
  | _ => fun r1 r2 => reflectLess (r1.get si.keyPath) (r2.get si.keyPath)

/-- One step of the insertion sort performed by Go's `sort.Sort` (which
`recordSorter.Sort` calls): the new element `x` moves down past the end
of the already-sorted prefix while `lt x prev` holds.  The prefix is kept
in reverse here, so the scan from the prefix's right end is a scan from
the head of `racc`. -/
def bubble (lt : α → α → Bool) (x : α) : List α → List α
  | [] => [x]
  | y :: ys => if lt x y then y :: bubble lt x ys else x :: y :: ys

/-- Embedding of `recordSorter.Sort`, i.e. Go's `sort.Sort` on the
record slice.  For slices of at most 7 elements (12 in later Go
versions) `sort.Sort` is exactly this insertion sort — every concrete
input evaluated below is in that range; for longer slices `sort.Sort`
switches to a quicksort that may produce a different permutation while
realizing the same comparison-sort contract.  `sort.Sort` is not a
stable sort. -/
def goInsertionSort (lt : α → α → Bool) (l : List α) : List α :=
  (l.foldl (fun racc x => bubble lt x racc) []).reverse

/-- One stored file of a database directory: either a record (one JSON
document per file, written by `Save`) or content that does not decode
into the record schema.  JSON encoding itself is external to this core;
the unit abstracts a file's single line of content. -/
inductive StoredUnit where
  | record (r : Record) : StoredUnit
  | garbage : StoredUnit
deriving DecidableEq

/-- Errors of the embedded operations, after the spec's taxonomy:
NotFound (`oddb.ErrRecordNotFound`), Unsupported (the multiple-sort
error), DecodeError (`json` unmarshal/decode failure), EncodeError
(`json` marshal failure in `Save`), IOFailure (any other storage access
error). -/
inductive Err where
  | notFound : Err
  | unsupported : Err
  | decodeFail : Err
  | encodeFail : Err
  | io : Err
deriving DecidableEq

/-- Embedding of the decode loop of `fileDatabase.Query`: each scanned
line is unmarshalled in order; the first failure aborts the loop.
Returns the records decoded, whether a decode failed, and how many
unmarshal calls were made. -/
def decodeLines : List StoredUnit → List Record × Bool × Nat
  | [] => ([], false, 0)
  | .garbage :: _ => ([], true, 1)
  | .record r :: rest =>
    let (rs, f, n) := decodeLines rest
    (r :: rs, f, n + 1)

/-- Embedding of the fs driver's `memoryRows`: the decoded record list
and the read cursor position. -/
structure MemoryRows where
  currentRowIndex : Nat
  records : List Record
deriving DecidableEq

/-- Embedding of `memoryRows.Next`: `none` models the `io.EOF` return
once the cursor is past the last record; otherwise the record at the
cursor is produced and the cursor advances by one. -/
def MemoryRows.next (rs : MemoryRows) : Option (Record × MemoryRows) :=
  if h : rs.currentRowIndex < rs.records.length then
    some (rs.records.get ⟨rs.currentRowIndex, h⟩,
      { rs with currentRowIndex := rs.currentRowIndex + 1 })
  else none

/-- Repeated `Next` calls with explicit fuel. -/
def MemoryRows.drainAux : Nat → MemoryRows → List Record
  | 0, _ => []
  | fuel + 1, rs =>
    match rs.next with
    | none => []
    | some (r, rs') => r :: MemoryRows.drainAux fuel rs'

/-- The sequence of records a `memoryRows` cursor yields when `Next` is
called until `io.EOF`. -/
def MemoryRows.drain (rs : MemoryRows) : List Record :=
  MemoryRows.drainAux (rs.records.length - rs.currentRowIndex) rs

/-- Outcome of the external scan `fileDatabase.Query` delegates to
(`grep` for the type discriminator over the database directory, run via
`sh`): either the matched lines, or an exit status of 1 (`grep` found
nothing), or any other failure of the command (for instance exit status
2 when the directory glob matches no file, or a spawn failure). -/
inductive ScanOutcome where
  | ok (lines : List StoredUnit) : ScanOutcome
  | noMatch : ScanOutcome
  | failed : ScanOutcome
deriving DecidableEq

/-- Result of `fileDatabase.Query`: the returned `Rows` value (Go
returns both a rows pointer and an error; in the `MkdirAll`-failure
branch both are non-nil), the returned error, and a trace of the
observable effects: whether the scan command was run and how many
candidate lines were decoded. -/
structure QueryOut where
  rows : Option MemoryRows
  err : Option Err
  scanRan : Bool
  decoded : Nat
deriving DecidableEq

/-- Embedding of `fileDatabase.Query`.  In source order: `MkdirAll` on
the database directory (on failure: empty rows together with the error);
the `grep` scan via `sh` (exit status 1 — nothing matched — yields empty
rows and nil error; any other failure is logged and also yields empty
rows and nil error); the decode loop (a failure returns nil rows and the
decode error); then, only if `len(Sorts) > 0`: more than one sort
returns nil rows and the unsupported error, exactly one sort sorts
via `newRecordSorter(...).Sort()`; finally the records are wrapped in a
rows cursor. -/
def queryRun (mkdirFail : Bool) (scan : ScanOutcome) (q : Query) : QueryOut :=
  if mkdirFail then ⟨some ⟨0, []⟩, some .io, false, 0⟩
  else
    match scan with
    | .failed => ⟨some ⟨0, []⟩, none, true, 0⟩
    | .noMatch => ⟨some ⟨0, []⟩, none, true, 0⟩
    | .ok lines =>
      let (records, failed, n) := decodeLines lines
      if failed then ⟨none, some .decodeFail, true, n⟩
      else if 1 < q.sorts.length then ⟨none, some .unsupported, true, n⟩
      else
        match q.sorts with
        | [] => ⟨some ⟨0, records⟩, none, true, n⟩
        | si :: _ => ⟨some ⟨0, goInsertionSort (recordSorterBy si) records⟩, none, true, n⟩

/-- The record sequence yielded by the rows of a query result (empty
when no rows value was returned). -/
def QueryOut.rowsList (o : QueryOut) : List Record :=
  match o.rows with
  | some rs => rs.drain
  | none => []

/-- The files of one database directory, as an association list from file
name (the record key) to content, kept sorted by name: the shell glob
`dir/*` the scan uses enumerates files in name order. -/
def Store := List (String × StoredUnit)

/-- Content of the file named `k`, when present. -/
def lookupStore : Store → String → Option StoredUnit
  | [], _ => none
  | (k', u) :: rest, k => if k = k' then some u else lookupStore rest k

/-- Writing the file named `k` (create or replace), keeping the list
sorted by name. -/
def insertStore : Store → String → StoredUnit → Store
  | [], k, u => [(k, u)]
  | (k', u') :: rest, k, u =>
    if k = k' then (k, u) :: rest
    else if goStrLt k k' then (k, u) :: (k', u') :: rest
    else (k', u') :: insertStore rest k u

/-- Removing the file named `k` (embedding `os.Remove`). -/
def removeStore : Store → String → Store
  | [], _ => []
  | (k', u) :: rest, k => if k = k' then rest else (k', u) :: removeStore rest k

/-- Outcome of the `grep` scan over a directory holding `store`, looking
for type `T`: an empty directory leaves the glob unexpanded and `grep`
fails on the literal pattern path (exit status 2, the `failed` outcome);
otherwise the matching lines are those record files whose type
discriminator equals `T`, in file-name order, and no match is exit
status 1.  Content that does not decode is modelled as not matching the
discriminator pattern. -/
def scanStore (store : Store) (T : String) : ScanOutcome :=
  if store.isEmpty then .failed
  else
    let m := store.filter fun kv =>
      match kv.2 with
      | .record r => r.typ = T
      | .garbage => false
    if m.isEmpty then .noMatch else .ok (m.map (·.2))

/-- `fileDatabase.Query` against a database directory holding `store`. -/
def queryStore (store : Store) (mkdirFail : Bool) (q : Query) : QueryOut :=
  queryRun mkdirFail (scanStore store q.typ) q

/-- Embedding of `fileDatabase`: the directory path and the database
key (`_public` or `_private`); the subscription store is out of scope of
the claims and omitted. -/
structure FileDatabase where
  dir : String
  key : String
deriving DecidableEq

/-- Embedding of `fileConn` (the fields the claims touch: the container
directory and application name). -/
structure FileConn where
  dir : String
  appName : String
deriving DecidableEq

/-- Embedding of `oddb.RecordHookEvent` (`Created`, `Updated`,
`Deleted`). -/
inductive RecordHookEvent where
  | created : RecordHookEvent
  | updated : RecordHookEvent
  | deleted : RecordHookEvent
deriving DecidableEq

/-- Embedding of `fileConn.AddDBRecordHook`: appends the hook function
to the package-level slice `dbHookFuncs`.  The receiver connection plays
no part; `H` stands for the opaque hook function values. -/
def addDBRecordHook (_conn : FileConn) (dbHookFuncs : List H) (hookFunc : H) : List H :=
  dbHookFuncs ++ [hookFunc]

/-- Embedding of `fileDatabase.executeHook`: given the error of the
preceding storage step, a non-nil error is returned unchanged with no
hook run; otherwise every function in the package-level `dbHookFuncs`
is started (as a goroutine) with the database, the record and the event.
The second component lists the dispatched invocations. -/
def executeHook (db : FileDatabase) (dbHookFuncs : List H) (record : Record)
    (event : RecordHookEvent) (err : Option Err) :
    Option Err × List (H × FileDatabase × Record × RecordHookEvent) :=
  match err with
  | some e => (some e, [])
  | none => (none, dbHookFuncs.map fun h => (h, db, record, event))

/-- Embedding of `fileDatabase.Get`: `os.Open` of the key's file (a
non-not-exist open failure is modelled by `openFail`; a missing file is
`oddb.ErrRecordNotFound`), then the JSON decode of the file content. -/
def getRun (store : Store) (key : String) (openFail : Bool) : Except Err Record :=
  if openFail then .error .io
  else
    match lookupStore store key with
    | none => .error .notFound
    | some .garbage => .error .decodeFail
    | some (.record r) => .ok r

/-- Modelled from the spec: `recordEventByPath` (not in the excerpt)
decides Created versus Updated by whether the target file existed
immediately before the write. -/
def recordEventByPath (store : Store) (key : String) : RecordHookEvent :=
  if (lookupStore store key).isSome then .updated else .created

/-- Embedding of `fileDatabase.Save`.  In source order: `MkdirAll` (on
failure the error is returned with the store untouched); the event kind
is computed from the key's existence; `os.Create` creates or truncates
the key's file (on failure the error is returned with the store
untouched); the JSON encode writes the record into the already-truncated
file (an encode failure leaves non-decodable content); finally
`executeHook` runs with the encode error.  Returns the error, the store
after the call, and the dispatched hook invocations. -/
def saveRun (db : FileDatabase) (dbHookFuncs : List H) (store : Store) (record : Record)
    (mkdirFail createFail encodeFail : Bool) :
    Option Err × Store × List (H × FileDatabase × Record × RecordHookEvent) :=
  if mkdirFail then (some .io, store, [])
  else
    let event := recordEventByPath store record.key
    if createFail then (some .io, store, [])
    else
      let store' := insertStore store record.key
        (if encodeFail then .garbage else .record record)
      let (e, disp) := executeHook db dbHookFuncs record event
        (if encodeFail then some .encodeFail else none)
      (e, store', disp)

/-- Embedding of `fileDatabase.Delete`: first `Get` of the key into a
fresh record (its error, NotFound included, is returned with no hook
run), then `os.Remove` of the key's file, then `executeHook` with the
fetched record, the Deleted event and the remove error. -/
def deleteRun (db : FileDatabase) (dbHookFuncs : List H) (store : Store) (key : String)
    (openFail removeFail : Bool) :
    Option Err × Store × List (H × FileDatabase × Record × RecordHookEvent) :=
  match getRun store key openFail with
  | .error e => (some e, store, [])
  | .ok record =>
    if removeFail then (some .io, store, [])
    else
      let (e, disp) := executeHook db dbHookFuncs record .deleted none
      (e, removeStore store key, disp)

/-- Non-strict counterpart of the comparator's ordering, used to state
what "non-decreasing order of field f" means: null is below everything,
booleans order false below true, integers, floats and strings by their
values, and values of differing kinds by their `fmt.Sprint` forms. -/
def vle (a b : Value) : Bool :=
  match a, b with
  | .null, _ => true
  | _, .null => false
  | .bool b1, .bool b2 => !b1 || b2
  | .int m, .int n => decide (m ≤ n)
  | .float p, .float q => decide (p ≤ q)
  | .str s, .str t => !goStrLt t s
  | a, b => !goStrLt (sprint b) (sprint a)

/-- A value is compatible with kind `k` when it is absent/null or of
kind `k`; a record set is order-comparable on a field when all its
values at that field are compatible with one kind. -/
def compatKind (k : Nat) (v : Value) : Bool :=
  v = .null ∨ v.kind = k

/-- Record `r1{score:3}` of the spec's Scenario B. -/
def scenarioR1 : Record := ⟨"r1", "x", [("score", .int 3)]⟩

/-- Record `r2{score:1}` of the spec's Scenario B. -/
def scenarioR2 : Record := ⟨"r2", "x", [("score", .int 1)]⟩

/-- Record `r3{score:2}` of the spec's Scenario B. -/
def scenarioR3 : Record := ⟨"r3", "x", [("score", .int 2)]⟩

/-- A database handle for the concrete scenarios. -/
def scenarioDB : FileDatabase := ⟨"data/app/_public", "_public"⟩

/-- The store obtained by saving `r1{score:3}`, `r2{score:1}`,
`r3{score:2}` (in that order, no registered hooks, no failures) into an
initially empty database, as in the spec's Scenario B. -/
def scenarioStore : Store :=
  (saveRun scenarioDB ([] : List Nat)
    ((saveRun scenarioDB ([] : List Nat)
      ((saveRun scenarioDB ([] : List Nat) [] scenarioR1 false false false).2.1)
      scenarioR2 false false false).2.1)
    scenarioR3 false false false).2.1

/-- The single-ascending-sort query on type `"x"` by field `score` of
the spec's Scenario B. -/
def scenarioQuery : Query := ⟨"x", [⟨"score", .ascending⟩]⟩

end SkygearFS

namespace SkygearFS

theorem drainAux_drop (fuel : Nat) :
    ∀ (i : Nat) (l : List Record), l.length ≤ i + fuel →
      MemoryRows.drainAux fuel ⟨i, l⟩ = l.drop i := by
  induction fuel with
  | zero =>
    intro i l h
    simp only [MemoryRows.drainAux]
    exact (List.drop_eq_nil_iff.mpr (by omega)).symm
  | succ fuel ih =>
    intro i l h
    simp only [MemoryRows.drainAux, MemoryRows.next]
    by_cases hi : i < l.length
    · simp only [hi, dif_pos]
      rw [ih (i + 1) l (by omega)]
      exact (List.drop_eq_getElem_cons hi).symm
    · simp only [hi, dif_neg, not_false_iff]
      exact (List.drop_eq_nil_iff.mpr (by omega)).symm

theorem drain_zero (l : List Record) : MemoryRows.drain ⟨0, l⟩ = l := by
  have := drainAux_drop l.length 0 l (by omega)
  simpa [MemoryRows.drain] using this

theorem decodeLines_records (recs : List Record) :
    decodeLines (recs.map .record) = (recs, false, recs.length) := by
  induction recs with
  | nil => rfl
  | cons r rest ih => simp [decodeLines, ih]

theorem bubble_perm (lt : α → α → Bool) (x : α) (l : List α) :
    (bubble lt x l).Perm (x :: l) := by
  induction l with
  | nil => exact List.Perm.refl _
  | cons y ys ih =>
    simp only [bubble]
    by_cases h : lt x y
    · rw [if_pos h]
      exact (ih.cons y).trans (List.Perm.swap x y ys)
    · rw [if_neg h]

theorem mem_bubble (lt : α → α → Bool) (x : α) (l : List α) (z : α)
    (hz : z ∈ bubble lt x l) : z = x ∨ z ∈ l := by
  have := (bubble_perm lt x l).mem_iff.mp hz
  simpa using this

theorem pairwise_bubble (lt le : α → α → Bool) (P : α → Prop)
    (h1 : ∀ a b, P a → P b → lt a b = true → le a b = true)
    (h2 : ∀ a b, P a → P b → lt a b = false → le b a = true)
    (htr : ∀ a b c, P a → P b → P c → le a b = true → le b c = true → le a c = true)
    (x : α) (hx : P x) :
    ∀ l : List α, (∀ z ∈ l, P z) →
      l.Pairwise (fun a b => le b a = true) →
      (bubble lt x l).Pairwise (fun a b => le b a = true) := by
  intro l
  induction l with
  | nil => intro _ _; simp [bubble]
  | cons y ys ih =>
    intro hP hp
    have hPy : P y := hP y (by simp)
    have hPys : ∀ z ∈ ys, P z := fun z hz => hP z (by simp [hz])
    rw [List.pairwise_cons] at hp
    simp only [bubble]
    by_cases h : lt x y
    · rw [if_pos h]
      rw [List.pairwise_cons]
      constructor
      · intro z hz
        rcases mem_bubble lt x ys z hz with rfl | hzys
        · exact h1 z y hx hPy h
        · exact hp.1 z hzys
      · exact ih hPys hp.2
    · rw [if_neg h]
      rw [List.pairwise_cons]
      have hyx : le y x = true := h2 x y hx hPy (by simpa using h)
      constructor
      · intro z hz
        rcases List.mem_cons.mp hz with rfl | hzys
        · exact hyx
        · exact htr z y x (hPys z hzys) hPy hx (hp.1 z hzys) hyx
      · rw [List.pairwise_cons]
        exact ⟨hp.1, hp.2⟩

theorem foldl_bubble_perm (lt : α → α → Bool) :
    ∀ (l racc : List α),
      (l.foldl (fun acc x => bubble lt x acc) racc).Perm (l.reverse ++ racc) := by
  intro l
  induction l with
  | nil => intro racc; simp
  | cons x xs ih =>
    intro racc
    simp only [List.foldl_cons, List.reverse_cons]
    have step1 := ih (bubble lt x racc)
    have step2 : (xs.reverse ++ bubble lt x racc).Perm (xs.reverse ++ (x :: racc)) :=
      List.Perm.append_left _ (bubble_perm lt x racc)
    have step3 : (xs.reverse ++ (x :: racc)).Perm ((xs.reverse ++ [x]) ++ racc) := by
      simp [List.append_assoc]
    exact (step1.trans step2).trans step3

theorem goInsertionSort_perm (lt : α → α → Bool) (l : List α) :
    (goInsertionSort lt l).Perm l := by
  have h := foldl_bubble_perm lt l []
  simp only [List.append_nil] at h
  exact ((List.reverse_perm _).trans h).trans (List.reverse_perm l)

theorem pairwise_foldl_bubble (lt le : α → α → Bool) (P : α → Prop)
    (h1 : ∀ a b, P a → P b → lt a b = true → le a b = true)
    (h2 : ∀ a b, P a → P b → lt a b = false → le b a = true)
    (htr : ∀ a b c, P a → P b → P c → le a b = true → le b c = true → le a c = true) :
    ∀ (l racc : List α), (∀ z ∈ l, P z) → (∀ z ∈ racc, P z) →
      racc.Pairwise (fun a b => le b a = true) →
      (l.foldl (fun acc x => bubble lt x acc) racc).Pairwise (fun a b => le b a = true) := by
  intro l
  induction l with
  | nil => intro racc _ _ hp; simpa using hp
  | cons x xs ih =>
    intro racc hl hracc hp
    have hx : P x := hl x (by simp)
    have hxs : ∀ z ∈ xs, P z := fun z hz => hl z (by simp [hz])
    simp only [List.foldl_cons]
    refine ih (bubble lt x racc) hxs ?_ ?_
    · intro z hz
      rcases mem_bubble lt x racc z hz with rfl | hzr
      · exact hx
      · exact hracc z hzr
    · exact pairwise_bubble lt le P h1 h2 htr x hx racc hracc hp

theorem pairwise_goInsertionSort (lt le : α → α → Bool) (P : α → Prop)
    (h1 : ∀ a b, P a → P b → lt a b = true → le a b = true)
    (h2 : ∀ a b, P a → P b → lt a b = false → le b a = true)
    (htr : ∀ a b c, P a → P b → P c → le a b = true → le b c = true → le a c = true)
    (l : List α) (hl : ∀ z ∈ l, P z) :
    (goInsertionSort lt l).Pairwise (fun a b => le a b = true) := by
  have h := pairwise_foldl_bubble lt le P h1 h2 htr l [] hl (by simp) (by simp)
  exact List.pairwise_reverse.mpr h

theorem bytesLt_nil_right (a : List Nat) : bytesLt a [] = false := by
  cases a <;> rfl

theorem bytesLt_irrefl : ∀ a : List Nat, bytesLt a a = false := by
  intro a
  induction a with
  | nil => rfl
  | cons x as ih => simp [bytesLt, ih]

theorem bytesLt_trans :
    ∀ a b c : List Nat, bytesLt a b = true → bytesLt b c = true → bytesLt a c = true := by
  intro a
  induction a with
  | nil =>
    intro b c h1 h2
    cases c with
    | nil => rw [bytesLt_nil_right] at h2; exact absurd h2 (by simp)
    | cons z cs => rfl
  | cons x as ih =>
    intro b c h1 h2
    cases b with
    | nil => rw [bytesLt_nil_right] at h1; exact absurd h1 (by simp)
    | cons y bs =>
      cases c with
      | nil => rw [bytesLt_nil_right] at h2; exact absurd h2 (by simp)
      | cons z cs =>
        simp only [bytesLt] at h1 h2 ⊢
        rcases Nat.lt_trichotomy x y with hxy | hxy | hxy
        · rcases Nat.lt_trichotomy y z with hyz | hyz | hyz
          · rw [if_pos (Nat.lt_trans hxy hyz)]
          · subst hyz; rw [if_pos hxy]
          · rw [if_neg (Nat.lt_asymm hyz), if_pos hyz] at h2
            exact absurd h2 (by simp)
        · subst hxy
          rw [if_neg (Nat.lt_irrefl x), if_neg (Nat.lt_irrefl x)] at h1
          rcases Nat.lt_trichotomy x z with hyz | hyz | hyz
          · rw [if_pos hyz]
          · subst hyz
            rw [if_neg (Nat.lt_irrefl x), if_neg (Nat.lt_irrefl x)] at h2 ⊢
            exact ih bs cs h1 h2
          · rw [if_neg (Nat.lt_asymm hyz), if_pos hyz] at h2
            exact absurd h2 (by simp)
        · rw [if_neg (Nat.lt_asymm hxy), if_pos hxy] at h1
          exact absurd h1 (by simp)

theorem bytesLt_asymm :
    ∀ a b : List Nat, bytesLt a b = true → bytesLt b a = false := by
  intro a
  induction a with
  | nil =>
    intro b h
    exact bytesLt_nil_right b
  | cons x as ih =>
    intro b h
    cases b with
    | nil => rw [bytesLt_nil_right] at h; exact absurd h (by simp)
    | cons y bs =>
      simp only [bytesLt] at h ⊢
      rcases Nat.lt_trichotomy x y with hxy | hxy | hxy
      · rw [if_neg (Nat.lt_asymm hxy), if_pos hxy]
      · subst hxy
        rw [if_neg (Nat.lt_irrefl x), if_neg (Nat.lt_irrefl x)] at h ⊢
        exact ih bs h
      · rw [if_neg (Nat.lt_asymm hxy), if_pos hxy] at h
        exact absurd h (by simp)

theorem bytesLt_total :
    ∀ a b : List Nat, bytesLt a b = false → bytesLt b a = true ∨ a = b := by
  intro a
  induction a with
  | nil =>
    intro b h
    cases b with
    | nil => exact Or.inr rfl
    | cons y bs => exact absurd h (by simp [bytesLt])
  | cons x as ih =>
    intro b h
    cases b with
    | nil => exact Or.inl rfl
    | cons y bs =>
      simp only [bytesLt] at h ⊢
      rcases Nat.lt_trichotomy x y with hxy | hxy | hxy
      · rw [if_pos hxy] at h; exact absurd h (by simp)
      · subst hxy
        rw [if_neg (Nat.lt_irrefl x), if_neg (Nat.lt_irrefl x)] at h ⊢
        rcases ih bs h with h' | h'
        · exact Or.inl h'
        · exact Or.inr (by rw [h'])
      · rw [if_neg (Nat.lt_asymm hxy), if_pos hxy]
        exact Or.inl rfl

theorem vle_null_right (v : Value) : vle v .null = true → v = .null := by
  cases v <;> simp [vle]

theorem reflectLess_imp_vle (k : Nat) (a b : Value)
    (ha : compatKind k a = true) (hb : compatKind k b = true)
    (h : reflectLess a b = true) : vle a b = true := by
  cases a <;> cases b <;>
    simp only [compatKind, decide_eq_true_eq, Value.kind, reduceCtorEq, false_or] at ha hb <;>
    first
    | rfl
    | (exfalso; omega)
    | skip
  case bool.null b1 => exact absurd h (by simp [reflectLess])
  case int.null n => exact absurd h (by simp [reflectLess])
  case float.null q => exact absurd h (by simp [reflectLess])
  case str.null s => exact absurd h (by simp [reflectLess])
  case bool.bool b1 b2 => revert h; cases b1 <;> cases b2 <;> decide
  case int.int m n =>
    simp only [reflectLess, reduceCtorEq, and_self, if_false, Value.kind, ne_eq,
      not_true_eq_false, decide_eq_true_eq] at h
    simp only [vle, decide_eq_true_eq]
    omega
  case float.float p q =>
    simp only [reflectLess, reduceCtorEq, and_self, if_false, Value.kind, ne_eq,
      not_true_eq_false, decide_eq_true_eq] at h
    simp only [vle, decide_eq_true_eq]
    exact le_of_lt h
  case str.str s t =>
    simp only [reflectLess, reduceCtorEq, and_self, if_false, Value.kind, ne_eq,
      not_true_eq_false, decide_eq_true_eq] at h
    simp only [vle, goStrLt] at h ⊢
    rw [bytesLt_asymm _ _ h]
    rfl

theorem reflectLess_false_imp_vle (k : Nat) (a b : Value)
    (ha : compatKind k a = true) (hb : compatKind k b = true)
    (h : reflectLess a b = false) : vle b a = true := by
  cases a <;> cases b <;>
    simp only [compatKind, decide_eq_true_eq, Value.kind, reduceCtorEq, false_or] at ha hb <;>
    first
    | rfl
    | (exfalso; omega)
    | skip
  case null.bool b1 => exact absurd h (by simp [reflectLess])
  case null.int n => exact absurd h (by simp [reflectLess])
  case null.float q => exact absurd h (by simp [reflectLess])
  case null.str s => exact absurd h (by simp [reflectLess])
  case bool.bool b1 b2 => revert h; cases b1 <;> cases b2 <;> decide
  case int.int m n =>
    simp only [reflectLess, reduceCtorEq, and_self, if_false, Value.kind, ne_eq,
      not_true_eq_false, decide_eq_false_iff_not, decide_eq_true_eq] at h
    simp only [vle, decide_eq_true_eq]
    omega
  case float.float p q =>
    simp only [reflectLess, reduceCtorEq, and_self, if_false, Value.kind, ne_eq,
      not_true_eq_false, decide_eq_false_iff_not, decide_eq_true_eq] at h
    simp only [vle, decide_eq_true_eq]
    exact le_of_not_lt h
  case str.str s t =>
    simp only [reflectLess, reduceCtorEq, and_self, if_false, Value.kind, ne_eq,
      not_true_eq_false] at h
    simp only [vle, goStrLt] at h ⊢
    rw [h]
    rfl

theorem vle_trans (k : Nat) (a b c : Value)
    (ha : compatKind k a = true) (hb : compatKind k b = true) (hc : compatKind k c = true)
    (h1 : vle a b = true) (h2 : vle b c = true) : vle a c = true := by
  cases a <;> cases b <;> cases c <;>
    simp only [compatKind, decide_eq_true_eq, Value.kind, reduceCtorEq, false_or] at ha hb hc <;>
    first
    | rfl
    | (exfalso; omega)
    | (simp [vle] at h1; done)
    | (simp [vle] at h2; done)
    | skip
  case bool.bool.bool b1 b2 b3 => revert h1 h2; cases b1 <;> cases b2 <;> cases b3 <;> decide
  case int.int.int m n p =>
    simp only [vle, decide_eq_true_eq] at h1 h2 ⊢
    omega
  case float.float.float p q r =>
    simp only [vle, decide_eq_true_eq] at h1 h2 ⊢
    exact le_trans h1 h2
  case str.str.str s t u =>
    simp only [vle, goStrLt, Bool.not_eq_true'] at h1 h2 ⊢
    by_cases hlt : bytesLt (strBytes u) (strBytes s) = true
    · exfalso
      rcases bytesLt_total _ _ h1 with h1' | h1'
      · rcases bytesLt_total _ _ h2 with h2' | h2'
        · have hsu := bytesLt_trans _ _ _ h1' h2'
          have hss := bytesLt_trans _ _ _ hsu hlt
          rw [bytesLt_irrefl] at hss
          exact absurd hss (by simp)
        · rw [h2'] at hlt
          rw [h1] at hlt
          exact absurd hlt (by simp)
      · rw [← h1'] at hlt
        rw [h2] at hlt
        exact absurd hlt (by simp)
    · simpa using hlt

/-- Claim C1: the comparator `less(a,b)` over two arbitrary field values
satisfies the four specified rules in precedence order: both null gives
true; exactly one null makes the null side less (true when the first is
null, false when the second is); differing underlying kinds fall back to
lexical comparison of the `fmt.Sprint` string forms; within one kind,
booleans order false < true with every equal pair reporting less = true,
integers and floats compare numerically, and strings compare byte-wise
lexically. -/
theorem c1_reflectLess_rules :
    (∀ a b : Value, a = .null → reflectLess a b = true)
    ∧ (∀ a b : Value, a ≠ .null → b = .null → reflectLess a b = false)
    ∧ (∀ a b : Value, a ≠ .null → b ≠ .null → a.kind ≠ b.kind →
        reflectLess a b = goStrLt (sprint a) (sprint b))
    ∧ (reflectLess (.bool false) (.bool true) = true
        ∧ reflectLess (.bool true) (.bool false) = false
        ∧ ∀ b : Bool, reflectLess (.bool b) (.bool b) = true)
    ∧ (∀ m n : Int, reflectLess (.int m) (.int n) = decide (m < n))
    ∧ (∀ p q : ℚ, reflectLess (.float p) (.float q) = decide (p < q))
    ∧ (∀ s t : String, reflectLess (.str s) (.str t) = goStrLt s t) := by
  refine ⟨?_, ?_, ?_, ⟨?_, ?_, ?_⟩, ?_, ?_, ?_⟩
  · intro a b ha
    subst ha
    cases b <;> simp [reflectLess]
  · intro a b ha hb
    subst hb
    cases a <;> simp_all [reflectLess]
  · intro a b ha hb hk
    cases a <;> cases b <;> simp_all [reflectLess, Value.kind]
  · rfl
  · rfl
  · intro b; cases b <;> rfl
  · intro m n; rfl
  · intro p q; rfl
  · intro s t; rfl

/-- Concrete instantiation of the C1 rules: one null on the left is less
against the integer 5; the integer 2 against the string "1" has differing
kinds and compares by string form ("2" < "1" is false); true before
false is not less. -/
theorem c1_reflectLess_rules_witness :
    reflectLess .null (.int 5) = true
    ∧ reflectLess (.int 2) .null = false
    ∧ reflectLess (.int 2) (.str "1") = goStrLt (sprint (.int 2)) (sprint (.str "1")) := by
  refine ⟨c1_reflectLess_rules.1 .null (.int 5) rfl,
    c1_reflectLess_rules.2.1 (.int 2) .null (by decide) rfl,
    c1_reflectLess_rules.2.2.1 (.int 2) (.str "1") (by decide) (by decide) (by decide)⟩

theorem decodeLines_garbage :
    ∀ lines : List StoredUnit, StoredUnit.garbage ∈ lines → (decodeLines lines).2.1 = true := by
  intro lines
  induction lines with
  | nil => intro h; simp at h
  | cons u rest ih =>
    intro h
    cases u with
    | garbage => rfl
    | record r =>
      rcases List.mem_cons.mp h with h' | h'
      · exact absurd h' (by simp)
      · simp only [decodeLines]
        rw [ih h']

theorem lookup_insertStore :
    ∀ (store : Store) (k : String) (u : StoredUnit),
      lookupStore (insertStore store k u) k = some u := by
  intro store
  induction store with
  | nil => intro k u; simp [insertStore, lookupStore]
  | cons kv rest ih =>
    intro k u
    obtain ⟨k', u'⟩ := kv
    simp only [insertStore]
    by_cases h : k = k'
    · rw [if_pos h]
      simp [lookupStore]
    · rw [if_neg h]
      by_cases h2 : goStrLt k k'
      · rw [if_pos h2]
        simp [lookupStore]
      · rw [if_neg h2]
        simp only [lookupStore, if_neg h]
        exact ih k u

/-- Claim C2 is falsified by records whose values at the sort field mix
underlying kinds: saving records with field f holding the integer 20,
the string "25" and the integer 3 (keys "a", "b", "c", type "x") and
querying type "x" ascending by f yields the base-scan order unchanged —
the integer 20 precedes the integer 3 — because the cross-kind
string-form comparison is not transitive with the numeric comparisons,
so the result is not in non-decreasing order of field f. -/
theorem c2_counterexample :
    (queryRun false
        (.ok [.record ⟨"a", "x", [("f", .int 20)]⟩,
          .record ⟨"b", "x", [("f", .str "25")]⟩,
          .record ⟨"c", "x", [("f", .int 3)]⟩])
        ⟨"x", [⟨"f", .ascending⟩]⟩).err = none
    ∧ (queryRun false
        (.ok [.record ⟨"a", "x", [("f", .int 20)]⟩,
          .record ⟨"b", "x", [("f", .str "25")]⟩,
          .record ⟨"c", "x", [("f", .int 3)]⟩])
        ⟨"x", [⟨"f", .ascending⟩]⟩).rowsList
      = [⟨"a", "x", [("f", .int 20)]⟩, ⟨"b", "x", [("f", .str "25")]⟩,
          ⟨"c", "x", [("f", .int 3)]⟩]
    ∧ ¬ ((queryRun false
        (.ok [.record ⟨"a", "x", [("f", .int 20)]⟩,
          .record ⟨"b", "x", [("f", .str "25")]⟩,
          .record ⟨"c", "x", [("f", .int 3)]⟩])
        ⟨"x", [⟨"f", .ascending⟩]⟩).rowsList.Pairwise
          (fun r1 r2 => vle (r1.get "f") (r2.get "f") = true)) := by
  decide

/-- Claim C2 (amended): for every query with exactly one Sort entry
{f, Ascending} over decodable stored records of the query's type whose
values at field f all share one underlying kind (or are absent/null),
Query succeeds and its Rows yield exactly those records, in
non-decreasing order of field f, with records whose field f is
absent/null first.  In particular Scenario B (scores 3, 1, 2 under keys
r1, r2, r3) yields [r2, r3, r1] — see the witness. -/
theorem c2_single_sort_sorted (recs : List Record) (f T : String) (k : Nat)
    (hc : ∀ r ∈ recs, compatKind k (r.get f) = true) :
    (queryRun false (.ok (recs.map .record)) ⟨T, [⟨f, .ascending⟩]⟩).err = none
    ∧ ((queryRun false (.ok (recs.map .record)) ⟨T, [⟨f, .ascending⟩]⟩).rowsList).Perm recs
    ∧ ((queryRun false (.ok (recs.map .record)) ⟨T, [⟨f, .ascending⟩]⟩).rowsList).Pairwise
        (fun r1 r2 => vle (r1.get f) (r2.get f) = true)
    ∧ ((queryRun false (.ok (recs.map .record)) ⟨T, [⟨f, .ascending⟩]⟩).rowsList).Pairwise
        (fun r1 r2 => r2.get f = .null → r1.get f = .null) := by
  have hrun : queryRun false (.ok (recs.map .record)) ⟨T, [⟨f, .ascending⟩]⟩ =
      ⟨some ⟨0, goInsertionSort (recordSorterBy ⟨f, .ascending⟩) recs⟩, none, true,
        recs.length⟩ := by
    simp [queryRun, decodeLines_records]
  have hlist : (queryRun false (.ok (recs.map .record)) ⟨T, [⟨f, .ascending⟩]⟩).rowsList =
      goInsertionSort (recordSorterBy ⟨f, .ascending⟩) recs := by
    rw [hrun]
    exact drain_zero _
  have hby : ∀ r1 r2 : Record,
      recordSorterBy ⟨f, .ascending⟩ r1 r2 = reflectLess (r1.get f) (r2.get f) := by
    intro r1 r2; rfl
  have hpair : (goInsertionSort (recordSorterBy ⟨f, .ascending⟩) recs).Pairwise
      (fun r1 r2 => vle (r1.get f) (r2.get f) = true) := by
    refine pairwise_goInsertionSort _ _ (fun r => compatKind k (r.get f) = true)
      ?_ ?_ ?_ recs hc
    · intro a b ha hb hlt
      rw [hby a b] at hlt
      exact reflectLess_imp_vle k _ _ ha hb hlt
    · intro a b ha hb hlt
      rw [hby a b] at hlt
      exact reflectLess_false_imp_vle k _ _ ha hb hlt
    · intro a b c ha hb hcc h1 h2
      exact vle_trans k _ _ _ ha hb hcc h1 h2
  refine ⟨by rw [hrun], ?_, ?_, ?_⟩
  · rw [hlist]
    exact goInsertionSort_perm _ recs
  · rw [hlist]
    exact hpair
  · rw [hlist]
    refine hpair.imp ?_
    intro a b hv hb
    rw [hb] at hv
    exact vle_null_right _ hv

/-- Scenario B instantiation of the amended C2: the three scenario
records are kind-compatible on `score`, the sorted output is pairwise
non-decreasing in `score`, and saving r1{score:3}, r2{score:1},
r3{score:2} into an empty database and then querying type "x" ascending
by score yields exactly [r2, r3, r1]. -/
theorem c2_single_sort_sorted_witness :
    ((queryRun false (.ok ([scenarioR1, scenarioR2, scenarioR3].map .record))
        ⟨"x", [⟨"score", .ascending⟩]⟩).rowsList).Pairwise
      (fun r1 r2 => vle (r1.get "score") (r2.get "score") = true)
    ∧ (queryStore scenarioStore false scenarioQuery).rowsList
        = [scenarioR2, scenarioR3, scenarioR1] :=
  ⟨(c2_single_sort_sorted [scenarioR1, scenarioR2, scenarioR3] "score" "x" 2
      (by decide)).2.2.1,
    by decide⟩

/-- Claim C3's stability clause is falsified at two records of type "x"
(keys "a", "b") that both lack the sort field: the comparator reports
less = true in both directions (they compare as ties), yet the query
returns them in the order [b, a], reversing their base-scan relative
order — `sort.Sort` (an insertion sort at this size) swaps ties whose
comparison reports true. -/
theorem c3_counterexample :
    (queryRun false (.ok [.record ⟨"a", "x", []⟩, .record ⟨"b", "x", []⟩])
        ⟨"x", [⟨"f", .ascending⟩]⟩).rowsList
      = [⟨"b", "x", []⟩, ⟨"a", "x", []⟩]
    ∧ recordSorterBy ⟨"f", .ascending⟩ ⟨"a", "x", []⟩ ⟨"b", "x", []⟩ = true
    ∧ recordSorterBy ⟨"f", .ascending⟩ ⟨"b", "x", []⟩ ⟨"a", "x", []⟩ = true := by
  decide

/-- Claim C3 (amended): with exactly one Sort the decoded records are
sorted with the comparator bound to the sort's field path, and the
Descending direction is exactly the logical negation of the ascending
comparator result for every pair of records and every field; the sort
(Go's `sort.Sort`) is however not stable — records that compare as ties
with the comparator reporting less = true in both directions (for
instance two records whose sort field is absent/null) have their
base-scan relative order reversed. -/
theorem c3_descending_negation (si : QuerySort) (r1 r2 : Record)
    (h : si.order = .descending) :
    recordSorterBy si r1 r2 = !(recordSorterBy ⟨si.keyPath, .ascending⟩ r1 r2)
    ∧ recordSorterBy ⟨si.keyPath, .ascending⟩ r1 r2
        = reflectLess (r1.get si.keyPath) (r2.get si.keyPath) := by
  obtain ⟨f, o⟩ := si
  cases o with
  | ascending => exact absurd h (by simp)
  | descending => exact ⟨rfl, rfl⟩

/-- Concrete instantiation of the amended C3: for a descending sort on
"f" over two records with f-values 1 and 2, the descending comparison
is the negation of the ascending one. -/
theorem c3_descending_negation_witness :
    recordSorterBy ⟨"f", .descending⟩ ⟨"a", "x", [("f", .int 1)]⟩ ⟨"b", "x", [("f", .int 2)]⟩
      = !(recordSorterBy ⟨"f", .ascending⟩ ⟨"a", "x", [("f", .int 1)]⟩
          ⟨"b", "x", [("f", .int 2)]⟩) :=
  (c3_descending_negation ⟨"f", .descending⟩ ⟨"a", "x", [("f", .int 1)]⟩
    ⟨"b", "x", [("f", .int 2)]⟩ rfl).1

/-- Claim C4 is falsified on both counts: with two Sort entries over one
decodable stored record, Query does fail Unsupported, but only after the
scan ran and the candidate was decoded (storage was touched first); and
with two Sort entries over a failed scan (for instance a missing storage
scope), Query does not fail at all — it returns success with empty
rows. -/
theorem c4_counterexample :
    (queryRun false (.ok [.record ⟨"a", "x", []⟩])
        ⟨"x", [⟨"f", .ascending⟩, ⟨"g", .ascending⟩]⟩).err = some .unsupported
    ∧ (queryRun false (.ok [.record ⟨"a", "x", []⟩])
        ⟨"x", [⟨"f", .ascending⟩, ⟨"g", .ascending⟩]⟩).scanRan = true
    ∧ (queryRun false (.ok [.record ⟨"a", "x", []⟩])
        ⟨"x", [⟨"f", .ascending⟩, ⟨"g", .ascending⟩]⟩).decoded = 1
    ∧ (queryRun false .failed ⟨"x", [⟨"f", .ascending⟩, ⟨"g", .ascending⟩]⟩).err = none := by
  decide

/-- Claim C4 (amended): for every query whose sorts list has two or more
entries, when the storage scope is created and the scan returns lines
that all decode, Query fails with the Unsupported error and no Rows
value (never a partially sorted result) — but only after the scan was
run and every candidate was decoded, not before touching storage; when
the scan instead reports no match or fails, the call returns success
with empty rows before the sorts are inspected. -/
theorem c4_multi_sort_unsupported (q : Query) (lines : List StoredUnit)
    (hq : 1 < q.sorts.length) (hd : (decodeLines lines).2.1 = false) :
    queryRun false (.ok lines) q
      = ⟨none, some .unsupported, true, (decodeLines lines).2.2⟩
    ∧ (queryRun false .noMatch q).err = none
    ∧ (queryRun false .failed q).err = none := by
  rcases hdl : decodeLines lines with ⟨recs, fl, n⟩
  rw [hdl] at hd
  simp only at hd
  subst hd
  refine ⟨?_, rfl, rfl⟩
  simp [queryRun, hdl, hq]

/-- Concrete instantiation of the amended C4: a two-sort query over one
decodable record fails Unsupported with the scan run and one candidate
decoded. -/
theorem c4_multi_sort_unsupported_witness :
    queryRun false (.ok [.record ⟨"a", "x", []⟩])
        ⟨"x", [⟨"f", .ascending⟩, ⟨"g", .ascending⟩]⟩
      = ⟨none, some .unsupported, true,
          (decodeLines [.record ⟨"a", "x", []⟩]).2.2⟩ :=
  (c4_multi_sort_unsupported ⟨"x", [⟨"f", .ascending⟩, ⟨"g", .ascending⟩]⟩
    [.record ⟨"a", "x", []⟩] (by decide) (by decide)).1

/-- Claim C5: during Query, if any scanned candidate line fails to
decode into the record schema, the call aborts with DecodeError and no
Rows value — no partial result set is returned. -/
theorem c5_decode_failure_aborts (q : Query) (lines : List StoredUnit)
    (h : StoredUnit.garbage ∈ lines) :
    (queryRun false (.ok lines) q).err = some .decodeFail
    ∧ (queryRun false (.ok lines) q).rows = none := by
  have hfail := decodeLines_garbage lines h
  rcases hdl : decodeLines lines with ⟨recs, fl, n⟩
  rw [hdl] at hfail
  simp only at hfail
  subst hfail
  constructor <;> simp [queryRun, hdl]

/-- Concrete instantiation of C5: a scan returning one good line and
one undecodable line aborts with DecodeError and no rows. -/
theorem c5_decode_failure_aborts_witness :
    (queryRun false (.ok [.record ⟨"a", "x", []⟩, .garbage]) ⟨"x", []⟩).err
        = some .decodeFail
    ∧ (queryRun false (.ok [.record ⟨"a", "x", []⟩, .garbage]) ⟨"x", []⟩).rows = none :=
  c5_decode_failure_aborts ⟨"x", []⟩ [.record ⟨"a", "x", []⟩, .garbage] (by decide)

/-- Claim C6: a missing storage scope (an empty store — nothing ever
written for this Database — makes the scan's directory glob fail) and a
scan reporting no matches are both non-errors: Query returns a nil
error and a Rows cursor over zero Records in either case. -/
theorem c6_empty_cases (q : Query) :
    queryStore [] false q = ⟨some ⟨0, []⟩, none, true, 0⟩
    ∧ (queryStore [] false q).rowsList = []
    ∧ queryRun false .noMatch q = ⟨some ⟨0, []⟩, none, true, 0⟩
    ∧ (queryRun false .noMatch q).rowsList = [] := by
  refine ⟨rfl, rfl, rfl, rfl⟩

/-- Claim C7 is falsified at Query's scan step: a failure of the scan
mechanism other than "nothing matched" (here the `failed` outcome, e.g.
a permission error or the exit-status-2 path) is logged and converted
into a successful empty result — the error is not surfaced to the
caller. -/
theorem c7_counterexample :
    (queryRun false .failed ⟨"x", []⟩).err = none
    ∧ (queryRun false .failed ⟨"x", []⟩).rows = some ⟨0, []⟩ := by
  decide

/-- Claim C7 (amended): IOFailures during Get, Save and Delete, and a
directory-creation failure during Query, surface synchronously to the
caller; but a failure of Query's scan mechanism other than "nothing
matched" is logged and converted into a successful empty result instead
of surfacing. -/
theorem c7_io_propagation :
    (∀ (store : Store) (key : String), getRun store key true = .error .io)
    ∧ (∀ (db : FileDatabase) (hooks : List Nat) (store : Store) (r : Record)
        (createFail encodeFail : Bool),
        (saveRun db hooks store r true createFail encodeFail).1 = some .io)
    ∧ (∀ (db : FileDatabase) (hooks : List Nat) (store : Store) (r : Record)
        (encodeFail : Bool),
        (saveRun db hooks store r false true encodeFail).1 = some .io)
    ∧ (∀ (db : FileDatabase) (hooks : List Nat) (store : Store) (key : String)
        (r : Record), lookupStore store key = some (.record r) →
        (deleteRun db hooks store key false true).1 = some .io)
    ∧ (∀ (scan : ScanOutcome) (q : Query), (queryRun true scan q).err = some .io)
    ∧ (∀ q : Query, (queryRun false .failed q).err = none) := by
  refine ⟨fun store key => rfl, fun db hooks store r cf ef => rfl,
    fun db hooks store r ef => rfl, ?_, fun scan q => rfl, fun q => rfl⟩
  intro db hooks store key r hl
  simp [deleteRun, getRun, hl]

/-- Concrete instantiation of the amended C7: a remove failure on a
present key surfaces as an IOFailure from Delete. -/
theorem c7_io_propagation_witness :
    (deleteRun scenarioDB ([] : List Nat) [("k", .record ⟨"k", "x", []⟩)] "k"
        false true).1 = some .io :=
  c7_io_propagation.2.2.2.1 scenarioDB ([] : List Nat)
    [("k", .record ⟨"k", "x", []⟩)] "k" ⟨"k", "x", []⟩ (by decide)

/-- Claim C8: Delete on an absent key fails NotFound and dispatches no
hook; on a present (decodable) key it first fetches the stored Record,
then removes the storage unit — a failed removal returns the IO error
and dispatches nothing, and a successful removal triggers every
registered hook exactly with the fetched Record and the Deleted event. -/
theorem c8_delete_semantics {H : Type} (db : FileDatabase) (hooks : List H)
    (store : Store) (key : String) (r : Record) :
    (lookupStore store key = none →
      deleteRun db hooks store key false false = (some .notFound, store, []))
    ∧ (lookupStore store key = some (.record r) →
      deleteRun db hooks store key false true = (some .io, store, []))
    ∧ (lookupStore store key = some (.record r) →
      deleteRun db hooks store key false false =
        (none, removeStore store key, hooks.map fun h => (h, db, r, .deleted))) := by
  refine ⟨?_, ?_, ?_⟩
  · intro hl
    simp [deleteRun, getRun, hl]
  · intro hl
    simp [deleteRun, getRun, hl]
  · intro hl
    simp [deleteRun, getRun, hl, executeHook]

/-- Concrete instantiation of C8: deleting the absent key "z" fails
NotFound with no hook dispatched, and deleting the present key "k" with
two registered hooks removes it and dispatches Deleted to both hooks
with the fetched record. -/
theorem c8_delete_semantics_witness :
    deleteRun scenarioDB ([0, 1] : List Nat) [("k", .record ⟨"k", "x", []⟩)] "z"
        false false
      = (some .notFound, [("k", .record ⟨"k", "x", []⟩)], [])
    ∧ deleteRun scenarioDB ([0, 1] : List Nat) [("k", .record ⟨"k", "x", []⟩)] "k"
        false false
      = (none, [], [(0, scenarioDB, ⟨"k", "x", []⟩, .deleted),
          (1, scenarioDB, ⟨"k", "x", []⟩, .deleted)]) :=
  ⟨(c8_delete_semantics scenarioDB ([0, 1] : List Nat)
      [("k", .record ⟨"k", "x", []⟩)] "z" ⟨"k", "x", []⟩).1 (by decide),
    (c8_delete_semantics scenarioDB ([0, 1] : List Nat)
      [("k", .record ⟨"k", "x", []⟩)] "k" ⟨"k", "x", []⟩).2.2 (by decide)⟩

/-- Claim C9: the hook registration list is one package-level global:
registering through AddDBRecordHook on any connection appends to it (so
it only grows and is independent of the registering connection), and
every successful Save or Delete dispatch on every database handle
invokes exactly the registered hooks, each once, with that database
handle, the record and the event. -/
theorem c9_global_hook_registry {H : Type} (conn conn' : FileConn) (hooks : List H)
    (h : H) (db : FileDatabase) (store : Store) (r : Record) (e : RecordHookEvent) :
    addDBRecordHook conn hooks h = hooks ++ [h]
    ∧ addDBRecordHook conn hooks h = addDBRecordHook conn' hooks h
    ∧ executeHook db hooks r e none = (none, hooks.map fun hk => (hk, db, r, e))
    ∧ (executeHook db hooks r e none).2.map (fun t => t.1) = hooks
    ∧ (saveRun db hooks store r false false false).2.2
        = hooks.map fun hk => (hk, db, r, recordEventByPath store r.key) := by
  refine ⟨rfl, rfl, rfl, ?_, ?_⟩
  · simp only [executeHook]
    induction hooks with
    | nil => rfl
    | cons x xs ih => simpa using ih
  · simp [saveRun, executeHook]

/-- Claim C10: Save is not atomic on error — the storage unit for
record.Key is created/truncated before the record is encoded into it,
so when the encoding fails Save returns the encoding error and
dispatches no hooks, yet the key's previously stored record has already
been destroyed (replaced by non-decodable content). -/
theorem c10_save_truncates_on_encode_failure {H : Type} (db : FileDatabase)
    (hooks : List H) (store : Store) (r old : Record)
    (hold : lookupStore store r.key = some (.record old)) :
    (saveRun db hooks store r false false true).1 = some .encodeFail
    ∧ (saveRun db hooks store r false false true).2.2 = []
    ∧ lookupStore (saveRun db hooks store r false false true).2.1 r.key = some .garbage
    ∧ lookupStore (saveRun db hooks store r false false true).2.1 r.key
        ≠ lookupStore store r.key := by
  have hs : (saveRun db hooks store r false false true).2.1
      = insertStore store r.key .garbage := by
    simp [saveRun, executeHook]
  refine ⟨by simp [saveRun, executeHook], by simp [saveRun, executeHook], ?_, ?_⟩
  · rw [hs, lookup_insertStore]
  · rw [hs, lookup_insertStore, hold]
    simp

/-- Concrete instantiation of C10: saving a record whose encoding fails
over an existing stored record under the same key returns the encoding
error, dispatches nothing, and leaves undecodable content where the old
record was. -/
theorem c10_save_truncates_on_encode_failure_witness :
    (saveRun scenarioDB ([0] : List Nat) [("k", .record ⟨"k", "x", []⟩)]
        ⟨"k", "x", [("a", .int 1)]⟩ false false true).1 = some .encodeFail
    ∧ lookupStore (saveRun scenarioDB ([0] : List Nat)
        [("k", .record ⟨"k", "x", []⟩)]
        ⟨"k", "x", [("a", .int 1)]⟩ false false true).2.1 "k" = some .garbage :=
  ⟨(c10_save_truncates_on_encode_failure scenarioDB ([0] : List Nat)
      [("k", .record ⟨"k", "x", []⟩)] ⟨"k", "x", [("a", .int 1)]⟩ ⟨"k", "x", []⟩
      (by decide)).1,
    (c10_save_truncates_on_encode_failure scenarioDB ([0] : List Nat)
      [("k", .record ⟨"k", "x", []⟩)] ⟨"k", "x", [("a", .int 1)]⟩ ⟨"k", "x", []⟩
      (by decide)).2.2.1⟩

end SkygearFS
